import Mathlib

/-!
Shallow embedding of `basic.py`: a lexer and recursive-descent parser for
arithmetic expressions.  Python strings are modelled as `List Char`, Python
ints as `Int`, Python floats as exact decimal rationals (IEEE rounding is
abstracted away; only small literals appear in the properties proved here).
A Python `AttributeError` (reading a never-assigned attribute) is modelled
with an `Except` monad; fields that the source may leave unset are `Option`s.
-/

namespace Basic

/-- The digit characters recognised by the lexer (`DIGITS` in the source). -/
def DIGITS : List Char := ['0', '1', '2', '3', '4', '5', '6', '7', '8', '9']

/-- Token kinds `TT_INT` .. `TT_EOF`. -/
inductive TokenType where
  | INT
  | FLOAT
  | PLUS
  | MINUS
  | MUL
  | DIV
  | LPAREN
  | RPAREN
  | EOF
deriving DecidableEq

/-- Numeric value of a digit character. -/
def digitVal (c : Char) : Nat := c.toNat - 48

/-- Value of a list of digit characters read in base 10. -/
def natOfDigits (ds : List Char) : Nat := ds.foldl (fun a c => 10 * a + digitVal c) 0

/-- Python `int(num_str)` for the digit strings produced by `make_number`. -/
def pyInt (ds : List Char) : Int := (natOfDigits ds : Int)

/-- Python `float(num_str)` for numeral strings holding at most one dot,
modelled as the exact decimal rational. -/
def pyFloat (ds : List Char) : ℚ :=
  let ip := ds.takeWhile (fun c => c != '.')
  let fp := (ds.dropWhile (fun c => c != '.')).tail
  (natOfDigits ip : ℚ) + (natOfDigits fp : ℚ) / (10 : ℚ) ^ fp.length

/-- A token value: `int` or `float` in the source. -/
inductive Value where
  | intV (n : Int)
  | floatV (q : ℚ)
deriving DecidableEq

/-- `Position`: index, line and column cursor over the source text, plus the
source name `fn` and the full text `ftxt`. -/
structure Position where
  idx : Int
  ln : Int
  col : Int
  fn : String
  ftxt : List Char
deriving DecidableEq

/-- `Position.advance`: index and column advance by one; a newline resets the
column and bumps the line. -/
def Position.advance (p : Position) (current_char : Option Char) : Position :=
  let q : Position := { p with idx := p.idx + 1, col := p.col + 1 }
  if current_char = some '\n' then { q with col := 0, ln := q.ln + 1 } else q

/-- `Position.copy`: Lean values are immutable, so a copy is the value itself. -/
def Position.copy (p : Position) : Position := p

/-- `Token`.  The source only assigns `pos_start` / `pos_end` when the
corresponding constructor arguments are given, so both are `Option`s. -/
structure Token where
  type : TokenType
  value : Option Value
  pos_start : Option Position
  pos_end : Option Position
deriving DecidableEq

/-- `Token.__init__`: with a `pos_start` argument, the end position is the
start advanced by one (the source calls `advance(self.value)`, and `value` is
`None` at every such call site, in particular never a newline); an explicit
`pos_end` argument overrides the end position. -/
def mkToken (type_ : TokenType) (value : Option Value)
    (pos_start : Option Position) (pos_end : Option Position) : Token :=
  let t : Token := ⟨type_, value, none, none⟩
  let t : Token :=
    match pos_start with
    | some p => { t with pos_start := some p.copy, pos_end := some (p.copy.advance none) }
    | none => t
  match pos_end with
  | some p => { t with pos_end := some p }
  | none => t

/-- `Error`: a source span, an error name and a detail string. -/
structure Error where
  pos_start : Position
  pos_end : Position
  error_name : String
  details : String
deriving DecidableEq

/-- `IllegalCharError`. -/
def IllegalCharError (ps pe : Position) (detail : String) : Error :=
  ⟨ps, pe, "Illegal Character", detail⟩

/-- `InvalidSyntaxError`. -/
def InvalidSyntaxError (ps pe : Position) (detail : String) : Error :=
  ⟨ps, pe, "Invalid Syntax", detail⟩

/-- Lexer state: the cursor `pos`, the current character (`None` past the
end) and the not-yet-reached remainder of the text.  In the source the
current character is `text[pos.idx]`; here `rest` is the derived view
`text[pos.idx + 1 :]`, kept explicitly so that the loops recurse on it. -/
structure LexerState where
  pos : Position
  current_char : Option Char
  rest : List Char
deriving DecidableEq

/-- `Lexer.advance`: advance the position past the current character and
refetch the current character. -/
def LexerState.advance (s : LexerState) : LexerState :=
  { pos := s.pos.advance s.current_char
    current_char := s.rest.head?
    rest := s.rest.tail }

/-- `Lexer.__init__`: position one-before-start, then one advance. -/
def mkLexer (fn : String) (text : List Char) : LexerState :=
  LexerState.advance
    { pos := { idx := -1, ln := 0, col := -1, fn := fn, ftxt := text }
      current_char := none
      rest := text }

/-- The characters the lexer has not yet consumed (current one included). -/
def LexerState.ahead (s : LexerState) : List Char :=
  match s.current_char with
  | some c => c :: s.rest
  | none => []

/-- Termination measure for the lexer loops: every `advance` with a current
character strictly decreases it. -/
def LexerState.meas (s : LexerState) : Nat :=
  (match s.current_char with
   | some _ => 1
   | none => 0) + s.rest.length

/-- The scan loop of `Lexer.make_number`: accumulate digits and at most one
dot; a second dot stops the loop without being consumed.  `fuel` is a
termination artifact; any `fuel > s.meas` is beyond what the loop can use. -/
def numLoop : Nat → LexerState → List Char → Nat → LexerState × List Char × Nat
  | 0, s, num_str, dot_count => (s, num_str, dot_count)
  | fuel + 1, s, num_str, dot_count =>
    match s.current_char with
    | none => (s, num_str, dot_count)
    | some c =>
      if c ∈ DIGITS ∨ c = '.' then
        if c = '.' then
          if dot_count = 1 then (s, num_str, dot_count)
          else numLoop fuel s.advance (num_str ++ ['.']) (dot_count + 1)
        else numLoop fuel s.advance (num_str ++ [c]) dot_count
      else (s, num_str, dot_count)

/-- `Lexer.make_number`: scan a numeral, then build an `INT` or `FLOAT`
token.  Note the source passes neither `pos_start` nor `pos_end` here. -/
def make_number (s : LexerState) : LexerState × Token :=
  match numLoop (s.meas + 1) s [] 0 with
  | (s', num_str, dot_count) =>
    if dot_count = 0 then (s', mkToken .INT (some (.intV (pyInt num_str))) none none)
    else (s', mkToken .FLOAT (some (.floatV (pyFloat num_str))) none none)

/-- The main loop of `Lexer.make_tokens`.  `fuel` is a termination artifact;
with `fuel > s.meas` the fuel can never run out. -/
def make_tokens_loop : Nat → LexerState → List Token → List Token × Option Error
  | 0, _, tokens => (tokens, none)
  | fuel + 1, s, tokens =>
    match s.current_char with
    | none => (tokens ++ [mkToken .EOF none (some s.pos) none], none)
    | some c =>
      if c = ' ' ∨ c = '\t' then
        make_tokens_loop fuel s.advance tokens
      else if c ∈ DIGITS then
        make_tokens_loop fuel (make_number s).1 (tokens ++ [(make_number s).2])
      else if c = '+' then
        make_tokens_loop fuel s.advance (tokens ++ [mkToken .PLUS none (some s.pos) none])
      else if c = '-' then
        make_tokens_loop fuel s.advance (tokens ++ [mkToken .MINUS none (some s.pos) none])
      else if c = '*' then
        make_tokens_loop fuel s.advance (tokens ++ [mkToken .MUL none (some s.pos) none])
      else if c = '/' then
        make_tokens_loop fuel s.advance (tokens ++ [mkToken .DIV none (some s.pos) none])
      else if c = '(' then
        make_tokens_loop fuel s.advance (tokens ++ [mkToken .LPAREN none (some s.pos) none])
      else if c = ')' then
        make_tokens_loop fuel s.advance (tokens ++ [mkToken .RPAREN none (some s.pos) none])
      else
        ([], some (IllegalCharError s.pos.copy s.advance.pos (String.mk ['\'', c, '\''])))

/-- `Lexer.make_tokens`, started with enough fuel for the whole text. -/
def make_tokens (s : LexerState) : List Token × Option Error :=
  make_tokens_loop (s.meas + 1) s []

/-- The characters on which `make_tokens` cannot fault (`IllegalCharacter`
is raised exactly on characters outside this set or on a dot that does not
continue a number scan). -/
def LEGAL : List Char := DIGITS ++ ['.', '+', '-', '*', '/', '(', ')', ' ', '\t']

/-- Invariant tying a lexer state to the input text: the cursor index is
non-negative and the unconsumed characters are the text from the index on. -/
def LexInv (text : List Char) (s : LexerState) : Prop :=
  0 ≤ s.pos.idx ∧ s.ahead = text.drop s.pos.idx.toNat

/-- AST nodes.  Python `None` is an ordinary value that can sit in a node
slot (a rule keeps going after a failed sub-parse, folding `None` children),
so it is a constructor here: `pyNone`. -/
inductive Node where
  | NumberNode (tok : Token)
  | BinOpNode (left_node : Node) (op_tok : Token) (right_node : Node)
  | UnaryOpNode (op_tok : Token) (node : Node)
  | pyNone
deriving DecidableEq

/-- `ParserResult`: the error (if any, `none` = Python `None`) and the node
built so far (initially `Node.pyNone`). -/
structure ParserResult where
  error : Option Error
  node : Node
deriving DecidableEq

/-- `ParserResult.success`: store the node.  The error is NOT cleared. -/
def ParserResult.success (r : ParserResult) (node : Node) : ParserResult :=
  { r with node := node }

/-- `ParserResult.failure`: store the error. -/
def ParserResult.failure (r : ParserResult) (e : Error) : ParserResult :=
  { r with error := some e }

/-- `ParserResult.register` applied to another `ParserResult`: copy a present
error and hand back the sub-result node. -/
def ParserResult.registerRes (r res : ParserResult) : ParserResult × Node :=
  (match res.error with
   | some e => { r with error := some e }
   | none => r,
   res.node)

/-- Events that abort the Python program or the model.  `attributeError`
models Python raising `AttributeError` on reading a never-assigned attribute;
`outOfFuel` is a model artifact of the fueled parser recursion and never
occurs at the fuel amounts used below. -/
inductive PyEvent where
  | attributeError (attr : String)
  | outOfFuel
deriving DecidableEq

/-- Parser state: the token list, the cursor index and `current_tok`
(`none` models the attribute never having been assigned). -/
structure ParserState where
  tokens : List Token
  tok_idx : Int
  current_tok : Option Token
deriving DecidableEq

/-- `Parser.advance`: bump the index, refetch `current_tok` while in range,
and return it — raising `AttributeError` if it was never assigned.  (All
call sites have `tok_idx ≥ -1`, so Python negative indexing cannot occur.) -/
def ParserState.advance (p : ParserState) : Except PyEvent (ParserState × Token) :=
  let idx := p.tok_idx + 1
  let cur := if idx < (p.tokens.length : Int) then p.tokens.get? idx.toNat else p.current_tok
  match cur with
  | some t => .ok ({ p with tok_idx := idx, current_tok := cur }, t)
  | none => .error (.attributeError "current_tok")

/-- `Parser.__init__`: index one-before-start, then one advance. -/
def mkParser (tokens : List Token) : Except PyEvent ParserState :=
  match ParserState.advance ⟨tokens, -1, none⟩ with
  | .ok (p, _) => .ok p
  | .error ev => .error ev

/-- Selector for the grammar rule a `bin_op` call folds over. -/
inductive Rule where
  | factor
  | term
  | expr
deriving DecidableEq

/-- Detail string of the `factor` fallback error. -/
def detIntFloat : String := "Expected int or float "

/-- Detail string of a missing right parenthesis. -/
def detRparen : String :=
  String.mk ['E', 'x', 'p', 'e', 'c', 't', 'e', 'd', ' ', '\'', ')', '\'', ' ']

/-- Detail string of the trailing-garbage error in `parse`. -/
def detOps : String :=
  String.mk ['E', 'x', 'p', 'e', 'c', 't', 'e', 'd', ' ', '\'', '+', '\'', ' ',
    '\'', '-', '\'', ' ', '\'', '*', '\'', ' ', 'o', 'r', ' ', '\'', '/', '\'', ' ']

mutual

/-- The grammar rules `Parser.factor`, `Parser.term` and `Parser.expr`.
`term` and `expr` delegate to `bin_op`; `factor` is written out.  Reading
`pos_start` / `pos_end` on a token that has none raises `AttributeError`,
exactly as unset attributes do in the source. -/
def ruleF : Nat → Rule → ParserState → Except PyEvent (ParserState × ParserResult)
  | 0, _, _ => .error .outOfFuel
  | fuel + 1, .factor, p =>
    match p.current_tok with
    | none => .error (.attributeError "current_tok")
    | some tok =>
      if tok.type = .INT ∨ tok.type = .FLOAT then
        match p.advance with
        | .error ev => .error ev
        | .ok (p, _) => .ok (p, ParserResult.success ⟨none, .pyNone⟩ (.NumberNode tok))
      else if tok.type = .PLUS ∨ tok.type = .MINUS then
        match p.advance with
        | .error ev => .error ev
        | .ok (p, _) =>
          match ruleF fuel .factor p with
          | .error ev => .error ev
          | .ok (p, subRes) =>
            match ParserResult.registerRes ⟨none, .pyNone⟩ subRes with
            | (res, factor) =>
              match res.error with
              | some _ => .ok (p, res)
              | none => .ok (p, res.success (.UnaryOpNode tok factor))
      else if tok.type = .LPAREN then
        match p.advance with
        | .error ev => .error ev
        | .ok (p, _) =>
          match ruleF fuel .expr p with
          | .error ev => .error ev
          | .ok (p, subRes) =>
            match ParserResult.registerRes ⟨none, .pyNone⟩ subRes with
            | (res, expr) =>
              match res.error with
              | some _ => .ok (p, res)
              | none =>
                match p.current_tok with
                | none => .error (.attributeError "current_tok")
                | some cur =>
                  if cur.type = .RPAREN then
                    match p.advance with
                    | .error ev => .error ev
                    | .ok (p, _) => .ok (p, res.success expr)
                  else
                    match cur.pos_start with
                    | none => .error (.attributeError "pos_start")
                    | some ps =>
                      match cur.pos_end with
                      | none => .error (.attributeError "pos_end")
                      | some pe => .ok (p, res.failure (InvalidSyntaxError ps pe detRparen))
      else
        match tok.pos_start with
        | none => .error (.attributeError "pos_start")
        | some ps =>
          match tok.pos_end with
          | none => .error (.attributeError "pos_end")
          | some pe =>
            .ok (p, ParserResult.failure ⟨none, .pyNone⟩ (InvalidSyntaxError ps pe detIntFloat))
  | fuel + 1, .term, p => binOpF fuel .factor [.MUL, .DIV] p
  | fuel + 1, .expr, p => binOpF fuel .term [.PLUS, .MINUS] p

/-- `Parser.bin_op` up to its while loop: run the sub-rule once, register
it, then enter the loop.  Note: no error check before the loop. -/
def binOpF : Nat → Rule → List TokenType → ParserState → Except PyEvent (ParserState × ParserResult)
  | 0, _, _, _ => .error .outOfFuel
  | fuel + 1, func, ops, p =>
    match ruleF fuel func p with
    | .error ev => .error ev
    | .ok (p, subRes) =>
      match ParserResult.registerRes ⟨none, .pyNone⟩ subRes with
      | (res, left) => binOpLoop fuel func ops p res left

/-- The while loop of `Parser.bin_op`: while the current token kind is in
`ops`, consume it, run the sub-rule, and fold a `BinOpNode` — with no check
of `res.error` anywhere in the loop. -/
def binOpLoop : Nat → Rule → List TokenType → ParserState → ParserResult → Node →
    Except PyEvent (ParserState × ParserResult)
  | 0, _, _, _, _, _ => .error .outOfFuel
  | fuel + 1, func, ops, p, res, left =>
    match p.current_tok with
    | none => .error (.attributeError "current_tok")
    | some cur =>
      if cur.type ∈ ops then
        match p.advance with
        | .error ev => .error ev
        | .ok (p, _) =>
          match ruleF fuel func p with
          | .error ev => .error ev
          | .ok (p, subRes) =>
            match ParserResult.registerRes res subRes with
            | (res, right) => binOpLoop fuel func ops p res (.BinOpNode left cur right)
      else .ok (p, res.success left)

end

/-- `Parser.parse`: run `expr`; if no error was recorded but the cursor is
not on EOF, fail with the trailing-garbage `InvalidSyntax` error positioned
at the current token (reading its positions, which number tokens lack). -/
def parseF (fuel : Nat) (p : ParserState) : Except PyEvent (ParserState × ParserResult) :=
  match ruleF fuel .expr p with
  | .error ev => .error ev
  | .ok (p, res) =>
    match res.error with
    | some _ => .ok (p, res)
    | none =>
      match p.current_tok with
      | none => .error (.attributeError "current_tok")
      | some cur =>
        if cur.type = .EOF then .ok (p, res)
        else
          match cur.pos_start with
          | none => .error (.attributeError "pos_start")
          | some ps =>
            match cur.pos_end with
            | none => .error (.attributeError "pos_end")
            | some pe => .ok (p, res.failure (InvalidSyntaxError ps pe detOps))

/-- `run`: tokenize, then ALWAYS build the parser and parse — the lexing
error variable is unpacked and never consulted, exactly as in the source
(`print(tokens)` is I/O and omitted).  The parse fuel is ample for any
token list of this length. -/
def run (fn : String) (text : List Char) : Except PyEvent (Node × Option Error) :=
  match make_tokens (mkLexer fn text) with
  | (tokens, _lex_error) =>
    match mkParser tokens with
    | .error ev => .error ev
    | .ok p =>
      match parseF (4 * tokens.length + 16) p with
      | .error ev => .error ev
      | .ok (_, res) => .ok (res.node, res.error)

/-- The cursor invariant of the parser: a non-empty token list, a
non-negative index, and `current_tok` equal to
`tokens[min tok_idx (length - 1)]`. -/
def parserInv (p : ParserState) : Prop :=
  p.tokens ≠ [] ∧ 0 ≤ p.tok_idx ∧
    p.current_tok = p.tokens.get? (min p.tok_idx.toNat (p.tokens.length - 1))

/-- Source name used by the concrete evaluations below. -/
def FN : String := "<stdin>"

end Basic

deriving instance DecidableEq for Except

namespace Basic

/-! ### General lemmas about the lexer state -/

theorem ahead_advance (s : LexerState) : s.advance.ahead = s.rest := by
  unfold LexerState.advance LexerState.ahead
  cases s.rest <;> simp

theorem ahead_cons {s : LexerState} {c : Char} {l : List Char} (h : s.ahead = c :: l) :
    s.current_char = some c ∧ s.rest = l := by
  unfold LexerState.ahead at h
  cases hc : s.current_char with
  | none => rw [hc] at h; cases h
  | some d => rw [hc] at h; cases h; exact ⟨rfl, rfl⟩

theorem ahead_nil {s : LexerState} (h : s.ahead = []) : s.current_char = none := by
  unfold LexerState.ahead at h
  cases hc : s.current_char with
  | none => rfl
  | some d => rw [hc] at h; cases h

theorem ahead_of_current {s : LexerState} {c : Char} (h : s.current_char = some c) :
    s.ahead = c :: s.rest := by
  unfold LexerState.ahead
  rw [h]

theorem mkLexer_ahead (fn : String) (text : List Char) : (mkLexer fn text).ahead = text := by
  unfold mkLexer
  rw [ahead_advance]

theorem meas_advance {s : LexerState} {c : Char} (h : s.current_char = some c) :
    s.advance.meas < s.meas := by
  unfold LexerState.meas LexerState.advance
  rw [h]
  cases s.rest <;> simp

theorem meas_pos {s : LexerState} {c : Char} (h : s.current_char = some c) : 1 ≤ s.meas := by
  unfold LexerState.meas
  rw [h]
  exact Nat.le_add_right 1 s.rest.length

theorem head?_drop {α : Type} (l : List α) : ∀ n : Nat, (l.drop n).head? = l.get? n := by
  induction l with
  | nil => intro n; cases n <;> rfl
  | cons a l ih =>
    intro n
    cases n with
    | zero => rfl
    | succ n => exact ih n

theorem lexInv_advance {text : List Char} {s : LexerState} {c : Char}
    (hc : s.current_char = some c) (h : LexInv text s) : LexInv text s.advance := by
  obtain ⟨h0, hd⟩ := h
  have hps : s.advance.pos.idx = s.pos.idx + 1 := by
    show (s.pos.advance s.current_char).idx = s.pos.idx + 1
    unfold Position.advance
    split <;> rfl
  refine ⟨by rw [hps]; omega, ?_⟩
  rw [ahead_advance, hps]
  rw [ahead_of_current hc] at hd
  have h2 : s.rest = (text.drop s.pos.idx.toNat).tail := by
    rw [← hd]
    rfl
  rw [h2, List.tail_drop]
  congr 1
  omega

theorem mkLexer_inv (fn : String) (text : List Char) : LexInv text (mkLexer fn text) := by
  constructor
  · show (0 : Int) ≤ (Position.advance _ none).idx
    unfold Position.advance
    simp
  · rw [mkLexer_ahead]
    show text = text.drop (Int.toNat (Position.advance ⟨-1, 0, -1, fn, text⟩ none).idx)
    unfold Position.advance
    simp

/-! ### Lemmas about the `make_number` scan loop -/

theorem numLoop_stop_none {s : LexerState} (h : s.current_char = none)
    (fuel : Nat) (a : List Char) (d : Nat) : numLoop fuel s a d = (s, a, d) := by
  cases fuel with
  | zero => rfl
  | succ f => unfold numLoop; rw [h]

theorem numLoop_stop_dot1 {s : LexerState} (h : s.current_char = some '.')
    (fuel : Nat) (a : List Char) : numLoop fuel s a 1 = (s, a, 1) := by
  cases fuel with
  | zero => rfl
  | succ f =>
    unfold numLoop
    rw [h]
    simp

theorem numLoop_stop_other {s : LexerState} {c : Char} (h : s.current_char = some c)
    (h1 : c ∉ DIGITS) (h2 : c ≠ '.') (fuel : Nat) (a : List Char) (d : Nat) :
    numLoop fuel s a d = (s, a, d) := by
  have hno : ¬(c ∈ DIGITS ∨ c = '.') := by
    intro hor
    rcases hor with h' | h'
    · exact h1 h'
    · exact h2 h'
  cases fuel with
  | zero => rfl
  | succ f =>
    simp only [numLoop, h]
    rw [if_neg hno]

theorem numLoop_step_digit {s : LexerState} {c : Char} (h : s.current_char = some c)
    (hd : c ∈ DIGITS) (fuel : Nat) (a : List Char) (d : Nat) :
    numLoop (fuel + 1) s a d = numLoop fuel s.advance (a ++ [c]) d := by
  have hdot : c ≠ '.' := by
    intro hc
    rw [hc] at hd
    exact absurd hd (by decide)
  simp only [numLoop, h]
  rw [if_pos (Or.inl hd), if_neg hdot]

theorem numLoop_step_dot {s : LexerState} (h : s.current_char = some '.')
    {d : Nat} (hd : d ≠ 1) (fuel : Nat) (a : List Char) :
    numLoop (fuel + 1) s a d = numLoop fuel s.advance (a ++ ['.']) (d + 1) := by
  simp only [numLoop, h]
  simp [hd]

theorem numLoop_meas_le : ∀ (fuel : Nat) (s : LexerState) (a : List Char) (d : Nat),
    (numLoop fuel s a d).1.meas ≤ s.meas := by
  intro fuel
  induction fuel with
  | zero => intro s a d; exact Nat.le_refl _
  | succ f ih =>
    intro s a d
    cases hc : s.current_char with
    | none => rw [numLoop_stop_none hc]
    | some c =>
      by_cases hdig : c ∈ DIGITS
      · rw [numLoop_step_digit hc hdig]
        exact le_trans (ih _ _ _) (le_of_lt (meas_advance hc))
      · by_cases hdot : c = '.'
        · subst hdot
          by_cases hone : d = 1
          · subst hone; rw [numLoop_stop_dot1 hc]
          · rw [numLoop_step_dot hc hone]
            exact le_trans (ih _ _ _) (le_of_lt (meas_advance hc))
        · rw [numLoop_stop_other hc hdig hdot]

theorem numLoop_ahead_prefix : ∀ (fuel : Nat) (s : LexerState) (a : List Char) (d : Nat),
    ∃ pre : List Char, s.ahead = pre ++ (numLoop fuel s a d).1.ahead ∧
      ∀ c ∈ pre, c ∈ DIGITS ∨ c = '.' := by
  intro fuel
  induction fuel with
  | zero => intro s a d; exact ⟨[], by simp [numLoop], by simp⟩
  | succ f ih =>
    intro s a d
    cases hc : s.current_char with
    | none => rw [numLoop_stop_none hc]; exact ⟨[], by simp, by simp⟩
    | some c =>
      by_cases hdig : c ∈ DIGITS
      · rw [numLoop_step_digit hc hdig]
        obtain ⟨pre, hpre, hmem⟩ := ih s.advance (a ++ [c]) d
        refine ⟨c :: pre, ?_, ?_⟩
        · rw [ahead_of_current hc, ← ahead_advance, hpre]; rfl
        · intro x hx
          rcases List.mem_cons.mp hx with hx | hx
          · exact Or.inl (hx ▸ hdig)
          · exact hmem x hx
      · by_cases hdot : c = '.'
        · subst hdot
          by_cases hone : d = 1
          · subst hone; rw [numLoop_stop_dot1 hc]; exact ⟨[], by simp, by simp⟩
          · rw [numLoop_step_dot hc hone]
            obtain ⟨pre, hpre, hmem⟩ := ih s.advance (a ++ ['.']) (d + 1)
            refine ⟨'.' :: pre, ?_, ?_⟩
            · rw [ahead_of_current hc, ← ahead_advance, hpre]; rfl
            · intro x hx
              rcases List.mem_cons.mp hx with hx | hx
              · exact Or.inr hx
              · exact hmem x hx
        · rw [numLoop_stop_other hc hdig hdot]; exact ⟨[], by simp, by simp⟩

theorem digit_not_ws {c : Char} (h : c ∈ DIGITS) : ¬(c = ' ' ∨ c = '\t') := by
  intro hor
  rcases hor with rfl | rfl <;> exact absurd h (by decide)

theorem numLoop_inv {text : List Char} : ∀ (fuel : Nat) (s : LexerState) (a : List Char) (d : Nat),
    LexInv text s → LexInv text (numLoop fuel s a d).1 := by
  intro fuel
  induction fuel with
  | zero => intro s a d h; exact h
  | succ f ih =>
    intro s a d h
    cases hc : s.current_char with
    | none => rw [numLoop_stop_none hc]; exact h
    | some c =>
      by_cases hdig : c ∈ DIGITS
      · rw [numLoop_step_digit hc hdig]
        exact ih _ _ _ (lexInv_advance hc h)
      · by_cases hdot : c = '.'
        · subst hdot
          by_cases hone : d = 1
          · subst hone; rw [numLoop_stop_dot1 hc]; exact h
          · rw [numLoop_step_dot hc hone]
            exact ih _ _ _ (lexInv_advance hc h)
        · rw [numLoop_stop_other hc hdig hdot]; exact h


/-! ### Lemmas about `make_number` -/

theorem make_number_fst (s : LexerState) :
    (make_number s).1 = (numLoop (s.meas + 1) s [] 0).1 := by
  unfold make_number
  cases h : numLoop (s.meas + 1) s [] 0 with
  | mk s' r =>
    cases r with
    | mk ns dc =>
      simp only []
      split <;> rfl

theorem make_number_ahead (s : LexerState) :
    ∃ pre : List Char, s.ahead = pre ++ (make_number s).1.ahead ∧
      ∀ c ∈ pre, c ∈ DIGITS ∨ c = '.' := by
  rw [make_number_fst]
  exact numLoop_ahead_prefix (s.meas + 1) s [] 0

theorem make_number_inv {text : List Char} {s : LexerState} (h : LexInv text s) :
    LexInv text (make_number s).1 := by
  rw [make_number_fst]
  exact numLoop_inv (s.meas + 1) s [] 0 h

theorem make_number_meas_lt {s : LexerState} {c : Char} (h : s.current_char = some c)
    (hd : c ∈ DIGITS) : (make_number s).1.meas < s.meas := by
  rw [make_number_fst]
  obtain ⟨m, hm⟩ : ∃ m, s.meas = m + 1 := ⟨s.meas - 1, by have := meas_pos h; omega⟩
  rw [hm, numLoop_step_digit h hd (m + 1)]
  calc (numLoop (m + 1) s.advance ([] ++ [c]) 0).1.meas
      ≤ s.advance.meas := numLoop_meas_le (m + 1) s.advance ([] ++ [c]) 0
    _ < s.meas := meas_advance h
    _ = m + 1 := hm

/-- Running the scan loop through a block of digits: the accumulator grows by
the block, the dot count is unchanged, and scanning continues behind it. -/
theorem numLoop_digits_run (ds : List Char) :
    ∀ (t : List Char) (fuel : Nat) (s : LexerState) (a : List Char) (d : Nat),
      s.meas < fuel → (∀ c ∈ ds, c ∈ DIGITS) → s.ahead = ds ++ t →
      ∃ (fuel2 : Nat) (s2 : LexerState), s2.meas < fuel2 ∧ s2.ahead = t ∧
        numLoop fuel s a d = numLoop fuel2 s2 (a ++ ds) d := by
  induction ds with
  | nil =>
    intro t fuel s a d hm _ hah
    exact ⟨fuel, s, hm, by simpa using hah, by simp⟩
  | cons c ds ih =>
    intro t fuel s a d hm hds hah
    obtain ⟨hc, hrest⟩ := ahead_cons hah
    cases fuel with
    | zero => exact absurd hm (Nat.not_lt_zero _)
    | succ f =>
      have hcd : c ∈ DIGITS := hds c (List.mem_cons_self c ds)
      have hm2 : s.advance.meas < f := by
        have h1 := meas_advance hc
        omega
      have hah2 : s.advance.ahead = ds ++ t := by
        rw [ahead_advance, hrest]
        rfl
      obtain ⟨fuel2, s2, hx1, hx2, hx3⟩ :=
        ih t f s.advance (a ++ [c]) d hm2 (fun x hx => hds x (List.mem_cons_of_mem c hx)) hah2
      refine ⟨fuel2, s2, hx1, hx2, ?_⟩
      rw [numLoop_step_digit hc hcd f, hx3]
      simp

/-- `make_number` on a state whose pending input is exactly a nonempty block
of digits: it consumes everything and yields the corresponding INT token. -/
theorem make_number_all_digits {ds : List Char} (hds : ∀ c ∈ ds, c ∈ DIGITS)
    {s : LexerState} (hah : s.ahead = ds) :
    ∃ s2, make_number s = (s2, mkToken .INT (some (.intV (pyInt ds))) none none) ∧
      s2.ahead = [] := by
  have hm : s.meas < s.meas + 1 := Nat.lt_succ_self _
  obtain ⟨fuel2, s2, h1, h2, h3⟩ :=
    numLoop_digits_run ds [] (s.meas + 1) s [] 0 hm hds (by simpa using hah)
  refine ⟨s2, ?_, h2⟩
  unfold make_number
  rw [h3, numLoop_stop_none (ahead_nil h2)]
  simp

/-- `make_number` on a state whose pending input is exactly
`digits ++ dot ++ digits`: it consumes everything and yields the
corresponding FLOAT token. -/
theorem make_number_decimal {ds fs : List Char} (hds : ∀ c ∈ ds, c ∈ DIGITS)
    (hfs : ∀ c ∈ fs, c ∈ DIGITS) {s : LexerState} (hah : s.ahead = ds ++ '.' :: fs) :
    ∃ s2, make_number s =
        (s2, mkToken .FLOAT (some (.floatV (pyFloat (ds ++ '.' :: fs)))) none none) ∧
      s2.ahead = [] := by
  have hm : s.meas < s.meas + 1 := Nat.lt_succ_self _
  obtain ⟨fuel2, s1, h1, h2, h3⟩ :=
    numLoop_digits_run ds ('.' :: fs) (s.meas + 1) s [] 0 hm hds hah
  obtain ⟨hc1, hr1⟩ := ahead_cons h2
  cases fuel2 with
  | zero => exact absurd h1 (Nat.not_lt_zero _)
  | succ f2 =>
    have hm2 : s1.advance.meas < f2 := by
      have := meas_advance hc1
      omega
    have hah2 : s1.advance.ahead = fs ++ [] := by
      rw [ahead_advance, hr1]
      simp
    obtain ⟨fuel3, s2, h4, h5, h6⟩ :=
      numLoop_digits_run fs [] f2 s1.advance (([] ++ ds) ++ ['.']) 1 hm2 hfs hah2
    have h5n : s2.ahead = [] := by simpa using h5
    refine ⟨s2, ?_, h5n⟩
    unfold make_number
    rw [h3, numLoop_step_dot hc1 (by omega) f2, h6, numLoop_stop_none (ahead_nil h5n)]
    simp

/-! ### Step lemmas for the `make_tokens` loop -/

theorem mtl_stop_none {s : LexerState} (h : s.current_char = none) (fuel : Nat)
    (acc : List Token) :
    make_tokens_loop (fuel + 1) s acc = (acc ++ [mkToken .EOF none (some s.pos) none], none) := by
  simp only [make_tokens_loop, h]

theorem mtl_step_space {s : LexerState} {c : Char} (h : s.current_char = some c)
    (hsp : c = ' ' ∨ c = '	') (fuel : Nat) (acc : List Token) :
    make_tokens_loop (fuel + 1) s acc = make_tokens_loop fuel s.advance acc := by
  simp only [make_tokens_loop, h]
  rw [if_pos hsp]

theorem mtl_step_digit {s : LexerState} {c : Char} (h : s.current_char = some c)
    (hd : c ∈ DIGITS) (fuel : Nat) (acc : List Token) :
    make_tokens_loop (fuel + 1) s acc =
      make_tokens_loop fuel (make_number s).1 (acc ++ [(make_number s).2]) := by
  simp only [make_tokens_loop, h]
  rw [if_neg (digit_not_ws hd), if_pos hd]

/-- Any branch of the loop that just advances past the current character
(whitespace or an operator): the loop continues on the advanced state with
some accumulator. -/
theorem mtl_step_advancing {s : LexerState} {c : Char} (h : s.current_char = some c)
    (hop : c ∈ [' ', '	', '+', '-', '*', '/', '(', ')']) (fuel : Nat) (acc : List Token) :
    ∃ acc2, make_tokens_loop (fuel + 1) s acc = make_tokens_loop fuel s.advance acc2 := by
  fin_cases hop
  · exact ⟨acc, by simp +decide [make_tokens_loop, h]⟩
  · exact ⟨acc, by simp +decide [make_tokens_loop, h]⟩
  · exact ⟨acc ++ [mkToken .PLUS none (some s.pos) none], by simp +decide [make_tokens_loop, h]⟩
  · exact ⟨acc ++ [mkToken .MINUS none (some s.pos) none], by simp +decide [make_tokens_loop, h]⟩
  · exact ⟨acc ++ [mkToken .MUL none (some s.pos) none], by simp +decide [make_tokens_loop, h]⟩
  · exact ⟨acc ++ [mkToken .DIV none (some s.pos) none], by simp +decide [make_tokens_loop, h]⟩
  · exact ⟨acc ++ [mkToken .LPAREN none (some s.pos) none], by simp +decide [make_tokens_loop, h]⟩
  · exact ⟨acc ++ [mkToken .RPAREN none (some s.pos) none], by simp +decide [make_tokens_loop, h]⟩

theorem mtl_step_illegal {s : LexerState} {c : Char} (h : s.current_char = some c)
    (hws : ¬(c = ' ' ∨ c = '	')) (hd : c ∉ DIGITS) (hp : c ≠ '+') (hmn : c ≠ '-')
    (hmu : c ≠ '*') (hdv : c ≠ '/') (hlp : c ≠ '(') (hrp : c ≠ ')') (fuel : Nat)
    (acc : List Token) :
    make_tokens_loop (fuel + 1) s acc =
      ([], some (IllegalCharError s.pos.copy s.advance.pos (String.mk ['\'', c, '\'']))) := by
  simp only [make_tokens_loop, h]
  rw [if_neg hws, if_neg hd, if_neg hp, if_neg hmn, if_neg hmu, if_neg hdv, if_neg hlp,
    if_neg hrp]


/-! ### The `make_tokens` loop on all-blank and on illegal inputs -/

/-- On pending input consisting only of spaces and tabs, the loop skips
everything and appends a single EOF token. -/
theorem mtl_blank : ∀ (fuel : Nat) (s : LexerState) (acc : List Token),
    s.meas < fuel → (∀ c ∈ s.ahead, c = ' ' ∨ c = '\t') →
    ∃ p, make_tokens_loop fuel s acc = (acc ++ [mkToken .EOF none (some p) none], none) := by
  intro fuel
  induction fuel with
  | zero => intro s acc hm _; exact absurd hm (Nat.not_lt_zero _)
  | succ f ih =>
    intro s acc hm hws
    cases hc : s.current_char with
    | none => exact ⟨s.pos, mtl_stop_none hc f acc⟩
    | some c =>
      have hcw : c = ' ' ∨ c = '\t' := by
        apply hws
        rw [ahead_of_current hc]
        exact List.mem_cons_self c s.rest
      rw [mtl_step_space hc hcw f acc]
      apply ih s.advance acc
      · have := meas_advance hc
        omega
      · intro x hx
        apply hws
        rw [ahead_of_current hc]
        rw [ahead_advance] at hx
        exact List.mem_cons_of_mem c hx


/-- On pending input containing a character outside `LEGAL`, the loop always
faults: it returns an empty token list and an `IllegalCharacter` error whose
one-character span sits at the cursor position of the faulting character,
which is either itself outside `LEGAL` or an unconsumed dot. -/
theorem mtl_illegal (text : List Char) : ∀ (fuel : Nat) (s : LexerState) (acc : List Token),
    s.meas < fuel → LexInv text s → (∃ c ∈ s.ahead, c ∉ LEGAL) →
    ∃ e c, make_tokens_loop fuel s acc = ([], some e) ∧
      e.error_name = "Illegal Character" ∧
      e.details = String.mk ['\'', c, '\''] ∧
      e.pos_end = e.pos_start.advance (some c) ∧
      0 ≤ e.pos_start.idx ∧
      text.get? e.pos_start.idx.toNat = some c ∧
      (c ∉ LEGAL ∨ c = '.') := by
  intro fuel
  induction fuel with
  | zero => intro s acc hm _ _; exact absurd hm (Nat.not_lt_zero _)
  | succ f ih =>
    intro s acc hm hinv hout
    cases hc : s.current_char with
    | none =>
      obtain ⟨x, hx, _⟩ := hout
      rw [LexerState.ahead, hc] at hx
      cases hx
    | some c =>
      have hahead : s.ahead = c :: s.rest := ahead_of_current hc
      by_cases hdig : c ∈ DIGITS
      · rw [mtl_step_digit hc hdig f acc]
        apply ih
        · have := make_number_meas_lt hc hdig
          omega
        · exact make_number_inv hinv
        · obtain ⟨pre, hpre, hmem⟩ := make_number_ahead s
          obtain ⟨x, hx, hxout⟩ := hout
          refine ⟨x, ?_, hxout⟩
          rw [hpre] at hx
          rcases List.mem_append.mp hx with hx | hx
          · exfalso
            apply hxout
            rcases hmem x hx with hxd | hxd
            · exact List.mem_append.mpr (Or.inl hxd)
            · rw [hxd]; decide
          · exact hx
      · by_cases hadv : c ∈ [' ', '\t', '+', '-', '*', '/', '(', ')']
        · obtain ⟨acc2, hstep⟩ := mtl_step_advancing hc hadv f acc
          rw [hstep]
          apply ih
          · have := meas_advance hc
            omega
          · exact lexInv_advance hc hinv
          · obtain ⟨x, hx, hxout⟩ := hout
            refine ⟨x, ?_, hxout⟩
            rw [ahead_advance]
            rw [hahead] at hx
            rcases List.mem_cons.mp hx with hx | hx
            · exfalso
              apply hxout
              subst hx
              fin_cases hadv <;> decide
            · exact hx
        · have hws : ¬(c = ' ' ∨ c = '\t') := by
            intro hor
            apply hadv
            rcases hor with rfl | rfl <;> decide
          have hcne : ∀ x : Char, x ∈ ['+', '-', '*', '/', '(', ')'] → c ≠ x := by
            intro x hxm heq
            apply hadv
            subst heq
            fin_cases hxm <;> decide
          rw [mtl_step_illegal hc hws hdig (hcne '+' (by decide)) (hcne '-' (by decide))
            (hcne '*' (by decide)) (hcne '/' (by decide)) (hcne '(' (by decide))
            (hcne ')' (by decide)) f acc]
          refine ⟨_, c, rfl, rfl, rfl, ?_, ?_, ?_, ?_⟩
          · show s.advance.pos = (s.pos.copy.advance (some c))
            show s.pos.advance s.current_char = s.pos.advance (some c)
            rw [hc]
          · exact hinv.1
          · show text.get? _ = some c
            have hdrop := hinv.2
            rw [hahead] at hdrop
            have := head?_drop text s.pos.idx.toNat
            rw [← hdrop] at this
            exact this.symm
          · by_cases hdot : c = '.'
            · exact Or.inr hdot
            · left
              intro hmem
              unfold LEGAL at hmem
              rcases List.mem_append.mp hmem with hmem | hmem
              · exact hdig hmem
              · apply hadv
                fin_cases hmem
                · exact absurd rfl hdot
                · decide
                · decide
                · decide
                · decide
                · decide
                · decide
                · decide
                · decide


/-! ### Parser cursor lemmas -/

theorem mkParser_cons (a : Token) (l : List Token) :
    mkParser (a :: l) = .ok ⟨a :: l, 0, some a⟩ := by
  have hc : (-1 : Int) + 1 < ((a :: l).length : Int) := by
    simp
  have hadv : ParserState.advance ⟨a :: l, -1, none⟩ = .ok (⟨a :: l, 0, some a⟩, a) := by
    simp only [ParserState.advance]
    rw [if_pos hc]
    rfl
  unfold mkParser
  rw [hadv]

/-! ### The claims -/

/-- C9: for every non-empty token sequence the parser cursor invariant
`current_tok = tokens[min tok_idx (len - 1)]` is established by
`Parser.__init__` and preserved by every `Parser.advance` (which also
succeeds, i.e. never reads past the end of the token list). -/
theorem parser_advance_invariant :
    (∀ tokens : List Token, tokens ≠ [] →
      ∃ p0, mkParser tokens = .ok p0 ∧ parserInv p0) ∧
    (∀ p : ParserState, parserInv p →
      ∃ p2 t, p.advance = .ok (p2, t) ∧ p2.tokens = p.tokens ∧
        p2.tok_idx = p.tok_idx + 1 ∧ parserInv p2) := by
  constructor
  · intro tokens hne
    match tokens with
    | [] => exact absurd rfl hne
    | a :: l =>
      refine ⟨⟨a :: l, 0, some a⟩, mkParser_cons a l, ?_, ?_, ?_⟩
      · simp
      · simp
      · show some a = (a :: l).get? (min (Int.toNat 0) ((a :: l).length - 1))
        simp
  · intro p hinv
    obtain ⟨hne, h0, hcur⟩ := hinv
    have hnpos : 0 < p.tokens.length := List.length_pos.mpr hne
    by_cases hlt : p.tok_idx + 1 < (p.tokens.length : Int)
    · obtain ⟨t, ht⟩ : ∃ t, p.tokens.get? (p.tok_idx + 1).toNat = some t := by
        cases hg : p.tokens.get? (p.tok_idx + 1).toNat with
        | none =>
          exfalso
          have := List.get?_eq_none.mp hg
          omega
        | some t => exact ⟨t, rfl⟩
      refine ⟨{ p with tok_idx := p.tok_idx + 1, current_tok := some t }, t, ?_, rfl, rfl,
        hne, show (0 : Int) ≤ p.tok_idx + 1 by omega, ?_⟩
      · simp only [ParserState.advance]
        rw [if_pos hlt, ht]
      · show some t = p.tokens.get? (min (p.tok_idx + 1).toNat (p.tokens.length - 1))
        rw [← ht]
        congr 1
        omega
    · have hid : min p.tok_idx.toNat (p.tokens.length - 1) = p.tokens.length - 1 := by
        omega
      obtain ⟨t, ht⟩ : ∃ t, p.tokens.get? (p.tokens.length - 1) = some t := by
        cases hg : p.tokens.get? (p.tokens.length - 1) with
        | none =>
          exfalso
          have := List.get?_eq_none.mp hg
          omega
        | some t => exact ⟨t, rfl⟩
      have hcur2 : p.current_tok = some t := by
        rw [hcur, hid, ht]
      refine ⟨{ p with tok_idx := p.tok_idx + 1, current_tok := p.current_tok }, t, ?_, rfl,
        rfl, hne, show (0 : Int) ≤ p.tok_idx + 1 by omega, ?_⟩
      · simp only [ParserState.advance]
        rw [if_neg hlt, hcur2]
      · show p.current_tok = p.tokens.get? (min (p.tok_idx + 1).toNat (p.tokens.length - 1))
        rw [hcur2, ← ht]
        congr 1
        omega

/-- Witness for C9 at the one-token list `[EOF]`. -/
theorem parser_advance_invariant_applied :
    ∃ p0, mkParser [mkToken .EOF none none none] = .ok p0 ∧ parserInv p0 :=
  parser_advance_invariant.1 [mkToken .EOF none none none] (by simp)

/-- C1: whenever tokenizing yields a (non-null) error, `run` does NOT return
`(null, lexError)`: the source ignores the error variable, builds
`Parser([])`, and `Parser.advance` reads the never-assigned `current_tok`,
so `run` raises `AttributeError`. -/
theorem run_after_lex_error (fn : String) (text : List Char) (e : Error)
    (h : make_tokens (mkLexer fn text) = ([], some e)) :
    run fn text = .error (.attributeError "current_tok") := by
  simp only [run]
  rw [h]
  rfl

/-- Witness for C1 at the input string consisting of a dollar sign. -/
theorem run_after_lex_error_applied :
    run FN ['$'] = .error (.attributeError "current_tok") :=
  run_after_lex_error FN ['$']
    (IllegalCharError ⟨0, 0, 0, FN, ['$']⟩ ⟨1, 0, 1, FN, ['$']⟩ (String.mk ['\'', '$', '\'']))
    (by decide)

/-- C2: on `"1 + 2 3"` (a complete expression followed by an extra token)
`parse` does not return an `InvalidSyntax` outcome: it raises
`AttributeError`, because the trailing token is a number token and number
tokens carry no `pos_start`. -/
theorem run_trailing_number_raises :
    run FN ['1', ' ', '+', ' ', '2', ' ', '3'] = .error (.attributeError "pos_start") := by
  decide

/-- C4: the INT token produced by tokenizing `"12"` carries NO start or end
position (`make_number` passes neither to the `Token` constructor), so the
multi-character token does not record the cursor position after its last
character. -/
theorem number_tokens_lack_positions :
    make_tokens (mkLexer FN ['1', '2']) =
      ([⟨.INT, some (.intV 12), none, none⟩,
        ⟨.EOF, none, some ⟨2, 0, 2, FN, ['1', '2']⟩, some ⟨3, 0, 3, FN, ['1', '2']⟩⟩],
       none) := by
  decide


/-- C3: `bin_op` does not short-circuit.  On `"* *"` the first error (the
`factor` failure at the first star, span 0..1) is overwritten: the loop keeps
consuming tokens and folding `BinOpNode`s around `None` children, and the
outcome reaching the caller carries the LAST error (at the EOF, span 3..4)
together with a node built after the failures.  The second conjunct shows the
first `factor` call alone already failed at span 0..1. -/
theorem bin_op_error_overwritten :
    run FN ['*', ' ', '*'] =
      .ok (.BinOpNode
            (.BinOpNode .pyNone
              ⟨.MUL, none, some ⟨0, 0, 0, FN, ['*', ' ', '*']⟩,
                some ⟨1, 0, 1, FN, ['*', ' ', '*']⟩⟩
              .pyNone)
            ⟨.MUL, none, some ⟨2, 0, 2, FN, ['*', ' ', '*']⟩,
              some ⟨3, 0, 3, FN, ['*', ' ', '*']⟩⟩
            .pyNone,
          some (InvalidSyntaxError ⟨3, 0, 3, FN, ['*', ' ', '*']⟩
            ⟨4, 0, 4, FN, ['*', ' ', '*']⟩ detIntFloat)) ∧
    ruleF 1 .factor ⟨(make_tokens (mkLexer FN ['*', ' ', '*'])).1, 0,
        some ⟨.MUL, none, some ⟨0, 0, 0, FN, ['*', ' ', '*']⟩,
          some ⟨1, 0, 1, FN, ['*', ' ', '*']⟩⟩⟩ =
      .ok (⟨(make_tokens (mkLexer FN ['*', ' ', '*'])).1, 0,
          some ⟨.MUL, none, some ⟨0, 0, 0, FN, ['*', ' ', '*']⟩,
            some ⟨1, 0, 1, FN, ['*', ' ', '*']⟩⟩⟩,
        ⟨some (InvalidSyntaxError ⟨0, 0, 0, FN, ['*', ' ', '*']⟩
          ⟨1, 0, 1, FN, ['*', ' ', '*']⟩ detIntFloat), .pyNone⟩) := by
  constructor
  · decide
  · decide

/-- Counterexample for C5: tokenizing `"1.2.3"` does NOT succeed without
error (the claimed FLOAT 1.2 followed by a number from `".3"` never
appears). -/
theorem one_two_three_lexes_with_error :
    (make_tokens (mkLexer FN ['1', '.', '2', '.', '3'])).2 ≠ none := by
  decide

/-- C5 (amended): the number scan itself does terminate at a second dot
without consuming it and without error (first conjunct, for every scanner
state); but the main lexer loop then rejects the unconsumed dot, so
`"1.2.3"` tokenizes to no tokens and an `IllegalCharacter` error spanning
exactly the second dot (index 3). -/
theorem second_dot_stops_scan_then_illegal :
    (∀ (s : LexerState) (a : List Char), s.current_char = some '.' →
      ∀ fuel : Nat, numLoop fuel s a 1 = (s, a, 1)) ∧
    make_tokens (mkLexer FN ['1', '.', '2', '.', '3']) =
      ([], some (IllegalCharError ⟨3, 0, 3, FN, ['1', '.', '2', '.', '3']⟩
        ⟨4, 0, 4, FN, ['1', '.', '2', '.', '3']⟩ (String.mk ['\'', '.', '\'']))) := by
  constructor
  · intro s a h fuel
    exact numLoop_stop_dot1 h fuel a
  · decide

/-- Witness for C5 at a concrete scanner state sitting on a dot. -/
theorem second_dot_stops_scan_applied :
    numLoop 5 ⟨⟨0, 0, 0, FN, ['.']⟩, some '.', []⟩ [] 1 =
      (⟨⟨0, 0, 0, FN, ['.']⟩, some '.', []⟩, [], 1) :=
  second_dot_stops_scan_then_illegal.1 ⟨⟨0, 0, 0, FN, ['.']⟩, some '.', []⟩ [] rfl 5

/-- Counterexample for C7: on `".x"` the offending character (the one
outside the legal set) is `x` at index 1, but the returned error does not
span it — the scan faults first on the dot at index 0. -/
theorem illegal_span_not_offending_char :
    ¬ (∃ e, make_tokens (mkLexer FN ['.', 'x']) = ([], some e) ∧
        e.pos_start.idx = 1 ∧ e.pos_end.idx = 2) := by
  rintro ⟨e, he, h1, h2⟩
  have hv : make_tokens (mkLexer FN ['.', 'x']) =
      ([], some (IllegalCharError ⟨0, 0, 0, FN, ['.', 'x']⟩ ⟨1, 0, 1, FN, ['.', 'x']⟩
        (String.mk ['\'', '.', '\'']))) := by decide
  rw [hv] at he
  have he2 := congrArg Prod.snd he
  simp only [Option.some.injEq] at he2
  rw [← he2] at h1
  exact absurd h1 (by decide)

/-- C8: parsing `"2 + 3 * 4"` yields, with no error, the tree
`BinOp(Number 2, +, BinOp(Number 3, *, Number 4))` — the multiplication is
nested as the right child of the addition. -/
theorem mul_nests_under_add :
    run FN ['2', ' ', '+', ' ', '3', ' ', '*', ' ', '4'] =
      .ok (.BinOpNode
        (.NumberNode ⟨.INT, some (.intV 2), none, none⟩)
        ⟨.PLUS, none,
          some ⟨2, 0, 2, FN, ['2', ' ', '+', ' ', '3', ' ', '*', ' ', '4']⟩,
          some ⟨3, 0, 3, FN, ['2', ' ', '+', ' ', '3', ' ', '*', ' ', '4']⟩⟩
        (.BinOpNode
          (.NumberNode ⟨.INT, some (.intV 3), none, none⟩)
          ⟨.MUL, none,
            some ⟨6, 0, 6, FN, ['2', ' ', '+', ' ', '3', ' ', '*', ' ', '4']⟩,
            some ⟨7, 0, 7, FN, ['2', ' ', '+', ' ', '3', ' ', '*', ' ', '4']⟩⟩
          (.NumberNode ⟨.INT, some (.intV 4), none, none⟩)),
       none) := by
  decide


theorem pos_advance_idx (p : Position) (c : Option Char) : (p.advance c).idx = p.idx + 1 := by
  simp only [Position.advance]
  split <;> rfl

/-- C6: for every string matching `digit+` the lexer yields exactly one INT
token carrying the parsed integer plus EOF and no error; for every string
matching `digit+ dot digit+` it yields exactly one FLOAT token carrying the
parsed decimal plus EOF and no error. -/
theorem valid_literals_tokenize (fn : String) :
    (∀ ds : List Char, ds ≠ [] → (∀ c ∈ ds, c ∈ DIGITS) →
      ∃ p, make_tokens (mkLexer fn ds) =
        ([mkToken .INT (some (.intV (pyInt ds))) none none,
          mkToken .EOF none (some p) none], none)) ∧
    (∀ ds fs : List Char, ds ≠ [] → fs ≠ [] →
      (∀ c ∈ ds, c ∈ DIGITS) → (∀ c ∈ fs, c ∈ DIGITS) →
      ∃ p, make_tokens (mkLexer fn (ds ++ '.' :: fs)) =
        ([mkToken .FLOAT (some (.floatV (pyFloat (ds ++ '.' :: fs)))) none none,
          mkToken .EOF none (some p) none], none)) := by
  constructor
  · intro ds hne hds
    match ds, hne with
    | c :: ds1, _ =>
      have hah : (mkLexer fn (c :: ds1)).ahead = c :: ds1 := mkLexer_ahead fn (c :: ds1)
      obtain ⟨hc, _⟩ := ahead_cons hah
      have hcd : c ∈ DIGITS := hds c (List.mem_cons_self c ds1)
      obtain ⟨s2, hmn, hah2⟩ := make_number_all_digits hds hah
      obtain ⟨f, hf⟩ : ∃ f, (mkLexer fn (c :: ds1)).meas = f + 1 :=
        ⟨(mkLexer fn (c :: ds1)).meas - 1, by have := meas_pos hc; omega⟩
      refine ⟨s2.pos, ?_⟩
      unfold make_tokens
      rw [mtl_step_digit hc hcd _ [], hmn, hf, mtl_stop_none (ahead_nil hah2) f]
      simp
  · intro ds fs hne hnef hds hfs
    match ds, hne with
    | c :: ds1, _ =>
      have hah : (mkLexer fn ((c :: ds1) ++ '.' :: fs)).ahead = (c :: ds1) ++ '.' :: fs :=
        mkLexer_ahead fn _
      obtain ⟨hc, _⟩ := ahead_cons hah
      have hcd : c ∈ DIGITS := hds c (List.mem_cons_self c ds1)
      obtain ⟨s2, hmn, hah2⟩ := make_number_decimal hds hfs hah
      obtain ⟨f, hf⟩ : ∃ f, (mkLexer fn ((c :: ds1) ++ '.' :: fs)).meas = f + 1 :=
        ⟨(mkLexer fn ((c :: ds1) ++ '.' :: fs)).meas - 1, by have := meas_pos hc; omega⟩
      refine ⟨s2.pos, ?_⟩
      unfold make_tokens
      rw [mtl_step_digit hc hcd _ [], hmn, hf, mtl_stop_none (ahead_nil hah2) f]
      simp

/-- Witness for C6 at `"7"` and `"1.5"`. -/
theorem valid_literals_tokenize_applied :
    (∃ p, make_tokens (mkLexer FN ['7']) =
      ([mkToken .INT (some (.intV (pyInt ['7']))) none none,
        mkToken .EOF none (some p) none], none)) ∧
    (∃ p, make_tokens (mkLexer FN (['1'] ++ '.' :: ['5'])) =
      ([mkToken .FLOAT (some (.floatV (pyFloat (['1'] ++ '.' :: ['5'])))) none none,
        mkToken .EOF none (some p) none], none)) :=
  ⟨(valid_literals_tokenize FN).1 ['7'] (by decide) (by decide),
   (valid_literals_tokenize FN).2 ['1'] ['5'] (by decide) (by decide) (by decide) (by decide)⟩

/-- C7 (amended): an input containing a character outside the legal set
always tokenizes to an empty token list plus an `IllegalCharacter` error
whose span covers exactly one character — the character at which the scan
faults.  That character is either itself outside the set or an unconsumed
dot (so the span need not cover the offending character, cf. the
counterexample `".x"`). -/
theorem illegal_input_error_span (fn : String) (text : List Char)
    (h : ∃ c ∈ text, c ∉ LEGAL) :
    ∃ e c, make_tokens (mkLexer fn text) = ([], some e) ∧
      e.error_name = "Illegal Character" ∧
      e.details = String.mk ['\'', c, '\''] ∧
      e.pos_end = e.pos_start.advance (some c) ∧
      e.pos_end.idx = e.pos_start.idx + 1 ∧
      0 ≤ e.pos_start.idx ∧
      text.get? e.pos_start.idx.toNat = some c ∧
      (c ∉ LEGAL ∨ c = '.') := by
  obtain ⟨e, c, h1, h2, h3, h4, h5, h6, h7⟩ :=
    mtl_illegal text ((mkLexer fn text).meas + 1) (mkLexer fn text) []
      (Nat.lt_succ_self _) (mkLexer_inv fn text)
      (by rw [mkLexer_ahead]; exact h)
  exact ⟨e, c, h1, h2, h3, h4, by rw [h4, pos_advance_idx], h5, h6, h7⟩

/-- Witness for C7 at `"x"`. -/
theorem illegal_input_error_span_applied :
    ∃ e c, make_tokens (mkLexer FN ['x']) = ([], some e) ∧
      e.error_name = "Illegal Character" ∧
      e.details = String.mk ['\'', c, '\''] ∧
      e.pos_end = e.pos_start.advance (some c) ∧
      e.pos_end.idx = e.pos_start.idx + 1 ∧
      0 ≤ e.pos_start.idx ∧
      ['x'].get? e.pos_start.idx.toNat = some c ∧
      (c ∉ LEGAL ∨ c = '.') :=
  illegal_input_error_span FN ['x'] (by decide)

/-- C10: on the empty input and on inputs of spaces and tabs only, the lexer
returns exactly one EOF token and no error, and `run` returns no node
(`pyNone`) together with an `InvalidSyntax` error whose detail says an int
or float was expected. -/
theorem blank_input_runs (fn : String) (text : List Char)
    (h : ∀ c ∈ text, c = ' ' ∨ c = '\t') :
    ∃ p, make_tokens (mkLexer fn text) = ([mkToken .EOF none (some p) none], none) ∧
      run fn text = .ok (.pyNone, some (InvalidSyntaxError p (p.advance none) detIntFloat)) := by
  obtain ⟨p, hp⟩ := mtl_blank ((mkLexer fn text).meas + 1) (mkLexer fn text) []
    (Nat.lt_succ_self _) (by rw [mkLexer_ahead]; exact h)
  have hp2 : make_tokens (mkLexer fn text) = ([mkToken .EOF none (some p) none], none) := by
    unfold make_tokens
    rw [hp]
    rfl
  refine ⟨p, hp2, ?_⟩
  simp only [run]
  rw [hp2]
  rfl

/-- Witness for C10 at the empty input. -/
theorem blank_input_runs_applied :
    ∃ p, make_tokens (mkLexer FN []) = ([mkToken .EOF none (some p) none], none) ∧
      run FN [] = .ok (.pyNone, some (InvalidSyntaxError p (p.advance none) detIntFloat)) :=
  blank_input_runs FN [] (by simp)

end Basic
